import Mathlib

/-!
Verification of the preprocessing utilities of the 79NG fjord model setup.

The central object is `smooth_2D_array` (src/tools/smoothing.py): a 2D
running average over a field with missing values (NaN).  We embed the
routine shallowly:

* a cell is `Option ℚ` — `none` models NaN (the missing sentinel), `some v`
  a finite numeric value;
* a grid is a total function `ℕ → ℕ → Option ℚ`; a `Field` packs a grid
  with its dimensions `(ni, nj)`, and only indices below the dimensions are
  meaningful;
* `data_extended` embeds line 35–36 of smoothing.py: a grid padded with
  `pm_i` rows / `pm_j` columns of NaN on each side, the original data
  copied into the interior;
* `np.ma`-masking (line 39) is the `Option` structure itself: a cell is
  masked iff it is `none`, and `maskedMean` averages the unmasked cells of
  a window, returning `none` when every cell is masked (as `np.ma.mean`
  returns the masked constant there);
* the double loop of lines 40–47 is a left fold over the row-major list of
  index pairs, writing one destination cell per step.  The state carries
  the caller's array and the destination array; with `overwrite = true`
  they alias (both are written, exactly as `data_smoothed = data` aliases
  in the source), with `overwrite = false` only the destination is
  written.  All reads go through `data_extended` of the original field,
  because the source builds `data_extended`/`data_masked` as copies before
  the loop starts.
-/

namespace FjordModel

namespace Smoothing

/-- A single array cell: `none` is the missing sentinel (NaN). -/
abbrev Cell := Option ℚ

/-- A 2D grid of cells, as a total function on indices. -/
abbrev Grid := ℕ → ℕ → Cell

/-- A 2D field: dimensions plus cell contents (`ni, nj` from `data.shape`,
line 31 of smoothing.py). -/
structure Field where
  ni : ℕ
  nj : ℕ
  entry : Grid

/-- Equality of fields on their meaningful footprint: same dimensions and
the same cells at every in-range position. -/
def fieldEqOn (A B : Field) : Prop :=
  A.ni = B.ni ∧ A.nj = B.nj ∧
    ∀ i j, i < A.ni → j < A.nj → A.entry i j = B.entry i j

/-- Lines 35–36 of smoothing.py: the array enlarged by `pm_i` rows and
`pm_j` columns of NaN on every side, with `data` copied into the interior
(`data_extended[pm_i : ni + pm_i, pm_j : nj + pm_j] = data`). -/
def data_extended (data : Field) (pm_i pm_j : ℕ) : Grid :=
  fun i j =>
    if pm_i ≤ i ∧ i < data.ni + pm_i ∧ pm_j ≤ j ∧ j < data.nj + pm_j then
      data.entry (i - pm_i) (j - pm_j)
    else none

/-- The window `data_masked[i : i + 2*pm_i + 1, j : j + 2*pm_j + 1]` of
line 46, listed row-major. -/
def windowCells (g : Grid) (pm_i pm_j i j : ℕ) : List Cell :=
  (List.range (2 * pm_i + 1)).flatMap fun di =>
    (List.range (2 * pm_j + 1)).map fun dj => g (i + di) (j + dj)

/-- `np.ma.mean` over a list of possibly-masked cells: the arithmetic mean
of the unmasked values, or the masked constant (`none`) when every cell is
masked. -/
def maskedMean (cells : List Cell) : Cell :=
  let vals := cells.filterMap id
  if vals.length = 0 then none else some (vals.sum / (vals.length : ℚ))

/-- The value the loop body (lines 42–47) computes for output cell
`(i, j)`: NaN when the window's center `(i + pm_i, j + pm_j)` of the
extended array is masked, otherwise the masked mean of the window. -/
def smoothedVal (data : Field) (pm_i pm_j i j : ℕ) : Cell :=
  let ext := data_extended data pm_i pm_j
  if (ext (i + pm_i) (j + pm_j)).isNone then none
  else maskedMean (windowCells ext pm_i pm_j i j)

/-- Point update of a grid, modelling `arr[i, j] = v`. -/
def writeCell (g : Grid) (i j : ℕ) (v : Cell) : Grid :=
  fun a b => if a = i ∧ b = j then v else g a b

/-- The row-major list of index pairs visited by the double loop of
lines 40–41. -/
def cellList (ni nj : ℕ) : List (ℕ × ℕ) :=
  (List.range ni).flatMap fun i => (List.range nj).map fun j => (i, j)

/-- One iteration of the loop body: the state is the pair
(caller's `data` array, destination `data_smoothed`).  The destination is
always written; the caller's array is written too exactly when
`overwrite` is set, because then `data_smoothed is data` (line 32). -/
def loopStep (overwrite : Bool) (data : Field) (pm_i pm_j : ℕ)
    (st : Grid × Grid) (ij : ℕ × ℕ) : Grid × Grid :=
  let v := smoothedVal data pm_i pm_j ij.1 ij.2
  (if overwrite then writeCell st.1 ij.1 ij.2 v else st.1,
   writeCell st.2 ij.1 ij.2 v)

/-- The full double loop of lines 40–47, starting from the caller's array
and an initial destination (`np.empty_like(data)` in copy mode — its
initial contents are arbitrary and are fully overwritten). -/
def runLoop (overwrite : Bool) (data : Field) (pm_i pm_j : ℕ)
    (dest₀ : Grid) : Grid × Grid :=
  (cellList data.ni data.nj).foldl (loopStep overwrite data pm_i pm_j)
    (data.entry, dest₀)

/-- `smooth_2D_array` (smoothing.py, lines 10–48).  Returns the pair
(returned value, state of the caller's array after the call): in copy mode
the returned value is `some` new field and the caller's array component is
whatever the loop left it (it is never written); in overwrite mode the
function returns `None` and the caller's array holds the result.
`dest₀` models the uninitialized buffer of `np.empty_like` (unused in
overwrite mode, where `data_smoothed` aliases `data`). -/
def smooth_2D_array (data : Field) (pm_i pm_j : ℕ) (overwrite : Bool)
    (dest₀ : Grid) : Option Field × Field :=
  let st := runLoop overwrite data pm_i pm_j
    (if overwrite then data.entry else dest₀)
  (if overwrite then none else some ⟨data.ni, data.nj, st.2⟩,
   ⟨data.ni, data.nj, st.1⟩)

/-! ### Basic lemmas about the loop -/

lemma mem_cellList {ni nj i j : ℕ} :
    (i, j) ∈ cellList ni nj ↔ i < ni ∧ j < nj := by
  simp [cellList, List.mem_flatMap, List.mem_map, List.mem_range,
    Prod.ext_iff]

lemma foldl_fst_copy (data : Field) (pm_i pm_j : ℕ)
    (l : List (ℕ × ℕ)) (st : Grid × Grid) :
    (l.foldl (loopStep false data pm_i pm_j) st).1 = st.1 := by
  induction l generalizing st with
  | nil => rfl
  | cons a t ih => exact ih _

lemma foldl_snd_write (ov : Bool) (data : Field) (pm_i pm_j : ℕ)
    (l : List (ℕ × ℕ)) (st : Grid × Grid) (i j : ℕ) :
    (l.foldl (loopStep ov data pm_i pm_j) st).2 i j =
      if (i, j) ∈ l then smoothedVal data pm_i pm_j i j else st.2 i j := by
  induction l generalizing st with
  | nil => simp
  | cons a t ih =>
    simp only [List.foldl_cons, ih, List.mem_cons]
    by_cases ht : (i, j) ∈ t
    · simp [ht]
    · by_cases ha : (i, j) = a
      · subst ha
        simp [ht, loopStep, writeCell]
      · have h1 : ¬(i = a.1 ∧ j = a.2) := by
          intro h
          exact ha (Prod.ext h.1 h.2)
        simp [ht, ha, loopStep, writeCell, h1]

lemma foldl_fst_overwrite (data : Field) (pm_i pm_j : ℕ)
    (l : List (ℕ × ℕ)) (st : Grid × Grid) (i j : ℕ) :
    (l.foldl (loopStep true data pm_i pm_j) st).1 i j =
      if (i, j) ∈ l then smoothedVal data pm_i pm_j i j else st.1 i j := by
  induction l generalizing st with
  | nil => simp
  | cons a t ih =>
    simp only [List.foldl_cons, ih, List.mem_cons]
    by_cases ht : (i, j) ∈ t
    · simp [ht]
    · by_cases ha : (i, j) = a
      · subst ha
        simp [ht, loopStep, writeCell]
      · have h1 : ¬(i = a.1 ∧ j = a.2) := by
          intro h
          exact ha (Prod.ext h.1 h.2)
        simp [ht, ha, loopStep, writeCell, h1]

/-- In copy mode the returned field's in-range entries are exactly the
loop-body values. -/
lemma smooth_copy_entry (data : Field) (pm_i pm_j : ℕ) (d₀ : Grid)
    {i j : ℕ} (hi : i < data.ni) (hj : j < data.nj) (out : Field)
    (hout : (smooth_2D_array data pm_i pm_j false d₀).1 = some out) :
    out.entry i j = smoothedVal data pm_i pm_j i j := by
  have h : out = ⟨data.ni, data.nj,
      (runLoop false data pm_i pm_j d₀).2⟩ := by
    simpa [smooth_2D_array] using hout.symm
  subst h
  show (runLoop false data pm_i pm_j d₀).2 i j = _
  rw [runLoop, foldl_snd_write]
  simp [mem_cellList, hi, hj]

/-- In overwrite mode the caller's array's in-range entries after the call
are exactly the loop-body values. -/
lemma smooth_overwrite_entry (data : Field) (pm_i pm_j : ℕ) (d₀ : Grid)
    {i j : ℕ} (hi : i < data.ni) (hj : j < data.nj) :
    ((smooth_2D_array data pm_i pm_j true d₀).2).entry i j =
      smoothedVal data pm_i pm_j i j := by
  show (runLoop true data pm_i pm_j data.entry).1 i j = _
  rw [runLoop, foldl_fst_overwrite]
  simp [mem_cellList, hi, hj]

/-- The window always contains its own center. -/
lemma center_mem_windowCells (g : Grid) (pm_i pm_j i j : ℕ) :
    g (i + pm_i) (j + pm_j) ∈ windowCells g pm_i pm_j i j := by
  simp only [windowCells, List.mem_flatMap, List.mem_map, List.mem_range]
  exact ⟨pm_i, by omega, pm_j, by omega, rfl⟩

/-- The extended array at the window center equals the original cell. -/
lemma data_extended_center (data : Field) (pm_i pm_j : ℕ) {i j : ℕ}
    (hi : i < data.ni) (hj : j < data.nj) :
    data_extended data pm_i pm_j (i + pm_i) (j + pm_j) =
      data.entry i j := by
  have hc : pm_i ≤ i + pm_i ∧ i + pm_i < data.ni + pm_i ∧
      pm_j ≤ j + pm_j ∧ j + pm_j < data.nj + pm_j := by omega
  simp [data_extended, hc]

/-- The field returned in copy mode, explicitly. -/
lemma smooth_copy_out (data : Field) (pm_i pm_j : ℕ) (d₀ : Grid)
    (out : Field)
    (hout : (smooth_2D_array data pm_i pm_j false d₀).1 = some out) :
    out = ⟨data.ni, data.nj, (runLoop false data pm_i pm_j d₀).2⟩ := by
  simpa [smooth_2D_array] using hout.symm

/-- A masked mean over a window that contains at least one unmasked cell
is an actual value, never the masked constant. -/
lemma maskedMean_isSome_of_mem {w : List Cell} {v : ℚ} (hv : some v ∈ w) :
    (maskedMean w).isSome = true := by
  have hmem : v ∈ w.filterMap id := List.mem_filterMap.2 ⟨some v, hv, rfl⟩
  have hne : w.filterMap id ≠ [] := List.ne_nil_of_mem hmem
  simp [maskedMean, List.length_eq_zero, hne]

/-- The loop body preserves missingness cell by cell: the computed value is
masked exactly when the input cell is. -/
lemma smoothedVal_isNone_eq (data : Field) (pm_i pm_j : ℕ) {i j : ℕ}
    (hi : i < data.ni) (hj : j < data.nj) :
    (smoothedVal data pm_i pm_j i j).isNone = (data.entry i j).isNone := by
  have hc := data_extended_center data pm_i pm_j hi hj
  cases h : data.entry i j with
  | none => simp [smoothedVal, hc, h]
  | some v =>
    have hmem : some v ∈ windowCells (data_extended data pm_i pm_j)
        pm_i pm_j i j := by
      have hm := center_mem_windowCells (data_extended data pm_i pm_j)
        pm_i pm_j i j
      rwa [hc, h] at hm
    obtain ⟨m, hm⟩ := Option.isSome_iff_exists.1 (maskedMean_isSome_of_mem hmem)
    simp [smoothedVal, hc, h, hm]

/-- With `pm_i = pm_j = 0` the loop body is the identity on every cell. -/
lemma smoothedVal_zero (data : Field) {i j : ℕ}
    (hi : i < data.ni) (hj : j < data.nj) :
    smoothedVal data 0 0 i j = data.entry i j := by
  have hc : data_extended data 0 0 i j = data.entry i j := by
    have h0 := data_extended_center data 0 0 hi hj
    simpa using h0
  have hw : windowCells (data_extended data 0 0) 0 0 i j =
      [data.entry i j] := by
    simp [windowCells, List.range_succ, hc]
  cases h : data.entry i j with
  | none => simp [smoothedVal, hc, h]
  | some v => simp [smoothedVal, hc, h, hw, maskedMean]

/-! ### Concrete inputs used by witnesses and examples -/

/-- The 2×2 example field `[[1, NaN], [3, 4]]` of the spec (§8): the NaN
sits at position (0, 1). -/
def exField : Field :=
  ⟨2, 2, fun i j =>
    if i = 0 ∧ j = 0 then some 1
    else if i = 0 ∧ j = 1 then none
    else if i = 1 ∧ j = 0 then some 3
    else if i = 1 ∧ j = 1 then some 4
    else none⟩

/-- A 2×2 field `[[1, 2], [3, 4]]` with no missing values. -/
def exFieldFull : Field :=
  ⟨2, 2, fun i j =>
    if i = 0 ∧ j = 0 then some 1
    else if i = 0 ∧ j = 1 then some 2
    else if i = 1 ∧ j = 0 then some 3
    else if i = 1 ∧ j = 1 then some 4
    else none⟩

/-- An all-masked initial destination buffer (stand-in for the arbitrary
contents of `np.empty_like`). -/
def destNone : Grid := fun _ _ => none

/-! ### Claim theorems -/

/-- C1: for every field and all radii, `smooth_2D_array` preserves
missingness exactly at every in-range position — a NaN input cell yields a
NaN output cell at the same `(i, j)` and a non-NaN input cell a non-NaN
output cell, in copy mode (the returned field) and in overwrite mode (the
caller's array after the call). -/
theorem smooth_2D_array_preserves_missingness (data : Field)
    (pm_i pm_j : ℕ) (d₀ : Grid) (i j : ℕ)
    (hi : i < data.ni) (hj : j < data.nj) :
    (∀ out, (smooth_2D_array data pm_i pm_j false d₀).1 = some out →
      (out.entry i j).isNone = (data.entry i j).isNone) ∧
    (((smooth_2D_array data pm_i pm_j true d₀).2).entry i j).isNone =
      (data.entry i j).isNone := by
  constructor
  · intro out hout
    rw [smooth_copy_entry data pm_i pm_j d₀ hi hj out hout,
      smoothedVal_isNone_eq data pm_i pm_j hi hj]
  · rw [smooth_overwrite_entry data pm_i pm_j d₀ hi hj,
      smoothedVal_isNone_eq data pm_i pm_j hi hj]

theorem smooth_2D_array_preserves_missingness_witness :
    (0 : ℕ) < exField.ni ∧ (1 : ℕ) < exField.nj ∧
    ((∀ out, (smooth_2D_array exField 1 1 false destNone).1 = some out →
        (out.entry 0 1).isNone = (exField.entry 0 1).isNone) ∧
      (((smooth_2D_array exField 1 1 true destNone).2).entry 0 1).isNone =
        (exField.entry 0 1).isNone) :=
  ⟨by decide, by decide,
    smooth_2D_array_preserves_missingness exField 1 1 destNone 0 1
      (by decide) (by decide)⟩

/-- C4: with `pm_i = pm_j = 0` the routine is the identity — the returned
field equals the input in copy mode, and in overwrite mode nothing is
returned and the caller's array is unchanged (a 1×1 window average is the
identity on every non-missing cell, and missing cells stay missing). -/
theorem smooth_2D_array_pm_zero_identity (data : Field) (d₀ : Grid) :
    (∀ out, (smooth_2D_array data 0 0 false d₀).1 = some out →
      fieldEqOn out data) ∧
    (smooth_2D_array data 0 0 true d₀).1 = none ∧
    fieldEqOn ((smooth_2D_array data 0 0 true d₀).2) data := by
  refine ⟨?_, rfl, rfl, rfl, ?_⟩
  · intro out hout
    have h := smooth_copy_out data 0 0 d₀ out hout
    subst h
    refine ⟨rfl, rfl, ?_⟩
    intro i j hi hj
    show (runLoop false data 0 0 d₀).2 i j = data.entry i j
    rw [runLoop, foldl_snd_write, if_pos (mem_cellList.2 ⟨hi, hj⟩)]
    exact smoothedVal_zero data hi hj
  · intro i j hi hj
    rw [smooth_overwrite_entry data 0 0 d₀ hi hj, smoothedVal_zero data hi hj]

theorem smooth_2D_array_pm_zero_identity_witness :
    fieldEqOn (Field.mk 2 2 (runLoop false exField 0 0 destNone).2)
      exField ∧
    fieldEqOn ((smooth_2D_array exField 0 0 true destNone).2) exField :=
  ⟨(smooth_2D_array_pm_zero_identity exField destNone).1 _ rfl,
   (smooth_2D_array_pm_zero_identity exField destNone).2.2⟩

/-- On the example field the smoothed value at `(0, 0)` is `8/3`: its 3×3
window, clipped to the array, holds the non-NaN values 1, 3, 4. -/
lemma smoothedVal_exField_00 : smoothedVal exField 1 1 0 0 = some (8 / 3) := by
  have h1 : smoothedVal exField 1 1 0 0 =
      maskedMean (windowCells (data_extended exField 1 1) 1 1 0 0) := rfl
  have hw : (windowCells (data_extended exField 1 1) 1 1 0 0).filterMap id =
      [1, 3, 4] := by decide
  rw [h1]
  simp only [maskedMean, hw]
  norm_num [List.sum_cons, List.sum_nil]

/-- On the example field the smoothed value at `(1, 1)` is `8/3` as well:
its clipped window holds the same three non-NaN values. -/
lemma smoothedVal_exField_11 : smoothedVal exField 1 1 1 1 = some (8 / 3) := by
  have h1 : smoothedVal exField 1 1 1 1 =
      maskedMean (windowCells (data_extended exField 1 1) 1 1 1 1) := rfl
  have hw : (windowCells (data_extended exField 1 1) 1 1 1 1).filterMap id =
      [1, 3, 4] := by decide
  rw [h1]
  simp only [maskedMean, hw]
  norm_num [List.sum_cons, List.sum_nil]

/-- C6 counterexample: on the spec's example field `[[1, NaN], [3, 4]]`
with `pm_i = pm_j = 1`, the output at `(0, 0)` is NOT missing — the input
holds the value 1 there (the NaN of the example sits at `(0, 1)`), so the
claim that `Output[0,0]` is missing because the input was missing there is
false. -/
theorem smooth_example_output00_not_missing :
    ((smooth_2D_array exField 1 1 false destNone).1.map
      fun o => (o.entry 0 0).isNone) = some false := by
  show some (smoothedVal exField 1 1 0 0).isNone = some false
  rw [smoothedVal_exField_00]
  rfl

/-- C6 (amended): on `[[1, NaN], [3, 4]]` with `pm_i = pm_j = 1`, the
missing cell is at `(0, 1)` and stays missing, while the non-missing cells
`(0, 0)` and `(1, 1)` both average the three non-NaN values to
`mean(1, 3, 4) = 8/3`, the NaN excluded from sum and count. -/
theorem smooth_example_nan_field :
    ((smooth_2D_array exField 1 1 false destNone).1.map
      fun o => (o.entry 0 0, o.entry 0 1, o.entry 1 1)) =
      some (some (8 / 3), none, some (8 / 3)) := by
  show some (smoothedVal exField 1 1 0 0, smoothedVal exField 1 1 0 1,
    smoothedVal exField 1 1 1 1) =
    some (some (8 / 3), none, some (8 / 3))
  rw [smoothedVal_exField_00, smoothedVal_exField_11]
  rfl

/-- C9: whenever the loop computes an averaged value (the center of the
extended window is non-missing), the window contains at least one
non-missing entry — the center itself — so the masked mean is taken over a
non-empty set: its all-masked branch is unreachable and no non-missing
input cell ever receives an undefined result. -/
theorem smooth_masked_mean_nonempty (data : Field) (pm_i pm_j i j : ℕ)
    (hi : i < data.ni) (hj : j < data.nj)
    (hc : (data.entry i j).isSome = true) :
    0 < ((windowCells (data_extended data pm_i pm_j) pm_i pm_j i
      j).filterMap id).length ∧
    (smoothedVal data pm_i pm_j i j).isSome = true := by
  obtain ⟨v, hv⟩ := Option.isSome_iff_exists.1 hc
  have hmem : some v ∈ windowCells (data_extended data pm_i pm_j)
      pm_i pm_j i j := by
    have hm := center_mem_windowCells (data_extended data pm_i pm_j)
      pm_i pm_j i j
    rwa [data_extended_center data pm_i pm_j hi hj, hv] at hm
  have hv' : v ∈ (windowCells (data_extended data pm_i pm_j)
      pm_i pm_j i j).filterMap id :=
    List.mem_filterMap.2 ⟨some v, hmem, rfl⟩
  refine ⟨List.length_pos.2 (List.ne_nil_of_mem hv'), ?_⟩
  have hcen : data_extended data pm_i pm_j (i + pm_i) (j + pm_j) =
      some v := by
    rw [data_extended_center data pm_i pm_j hi hj, hv]
  simp [smoothedVal, hcen, maskedMean_isSome_of_mem hmem]

theorem smooth_masked_mean_nonempty_witness :
    (1 : ℕ) < exField.ni ∧ (0 : ℕ) < exField.nj ∧
    (exField.entry 1 0).isSome = true ∧
    (0 < ((windowCells (data_extended exField 1 1) 1 1 1
        0).filterMap id).length ∧
      (smoothedVal exField 1 1 1 0).isSome = true) :=
  ⟨by decide, by decide, by decide,
    smooth_masked_mean_nonempty exField 1 1 1 0 (by decide) (by decide)
      (by decide)⟩

/-- C5: copy mode has no side effect on the caller's array — after the
call the array holds exactly its old cells — and the value returned is a
field of identical shape. -/
theorem smooth_copy_no_side_effects (data : Field) (pm_i pm_j : ℕ)
    (d₀ : Grid) :
    (smooth_2D_array data pm_i pm_j false d₀).2 = data ∧
    ((smooth_2D_array data pm_i pm_j false d₀).1.map Field.ni) =
      some data.ni ∧
    ((smooth_2D_array data pm_i pm_j false d₀).1.map Field.nj) =
      some data.nj := by
  refine ⟨?_, rfl, rfl⟩
  show (⟨data.ni, data.nj,
    (runLoop false data pm_i pm_j d₀).1⟩ : Field) = data
  rw [runLoop, foldl_fst_copy]

/-- C3: overwrite mode returns nothing, leaves the caller's array holding
the smoothed values, and those values agree — at every in-range cell, with
equal dimensions — with the field returned by copy mode on the same input:
the loop reads only the extended-field snapshot, so in-place writes never
corrupt later windows. -/
theorem smooth_overwrite_equiv_copy (data : Field) (pm_i pm_j : ℕ)
    (d₀ d₁ : Grid) :
    (smooth_2D_array data pm_i pm_j true d₀).1 = none ∧
    ∀ out, (smooth_2D_array data pm_i pm_j false d₁).1 = some out →
      fieldEqOn ((smooth_2D_array data pm_i pm_j true d₀).2) out := by
  refine ⟨rfl, ?_⟩
  intro out hout
  have h := smooth_copy_out data pm_i pm_j d₁ out hout
  subst h
  refine ⟨rfl, rfl, ?_⟩
  intro i j hi hj
  have hi' : i < data.ni := hi
  have hj' : j < data.nj := hj
  rw [smooth_overwrite_entry data pm_i pm_j d₀ hi' hj']
  show _ = (runLoop false data pm_i pm_j d₁).2 i j
  rw [runLoop, foldl_snd_write, if_pos (mem_cellList.2 ⟨hi', hj'⟩)]

theorem smooth_overwrite_equiv_copy_witness :
    fieldEqOn ((smooth_2D_array exField 1 1 true destNone).2)
      (Field.mk 2 2 (runLoop false exField 1 1 destNone).2) :=
  (smooth_overwrite_equiv_copy exField 1 1 destNone destNone).2 _ rfl

/-! ### The clipped-window mean (C2) -/

lemma sum_map_list_range {M : Type} [AddCommMonoid M] (n : ℕ) (f : ℕ → M) :
    ((List.range n).map f).sum = ∑ k ∈ Finset.range n, f k := by
  induction n with
  | zero => simp
  | succ m ih => simp [List.range_succ, Finset.sum_range_succ, ih]

lemma sum_map_flatMap {M α β : Type} [AddCommMonoid M] (l : List α)
    (f : α → List β) (F : β → M) :
    ((l.flatMap f).map F).sum = (l.map fun a => ((f a).map F).sum).sum := by
  induction l with
  | nil => simp
  | cons a t ih => simp [ih]

lemma filterMap_id_sum (l : List Cell) :
    (l.filterMap id).sum = (l.map fun c => c.getD 0).sum := by
  induction l with
  | nil => simp
  | cons c t ih => cases c <;> simp [ih]

lemma filterMap_id_length (l : List Cell) :
    (l.filterMap id).length =
      (l.map fun c => if c.isSome then (1 : ℕ) else 0).sum := by
  induction l with
  | nil => simp
  | cons c t ih =>
    cases c <;> simp [ih]
    omega

lemma windowCells_map_sum {M : Type} [AddCommMonoid M] (g : Grid)
    (pm_i pm_j i j : ℕ) (F : Cell → M) :
    ((windowCells g pm_i pm_j i j).map F).sum =
      ∑ d ∈ Finset.range (2 * pm_i + 1) ×ˢ Finset.range (2 * pm_j + 1),
        F (g (i + d.1) (j + d.2)) := by
  rw [windowCells, sum_map_flatMap, sum_map_list_range, Finset.sum_product]
  refine Finset.sum_congr rfl fun di _ => ?_
  rw [List.map_map, sum_map_list_range]
  rfl

lemma data_extended_isSome_iff (data : Field) (pm_i pm_j a b : ℕ) :
    (data_extended data pm_i pm_j a b).isSome = true ↔
      pm_i ≤ a ∧ a < data.ni + pm_i ∧ pm_j ≤ b ∧ b < data.nj + pm_j ∧
        (data.entry (a - pm_i) (b - pm_j)).isSome = true := by
  by_cases h : pm_i ≤ a ∧ a < data.ni + pm_i ∧ pm_j ≤ b ∧
      b < data.nj + pm_j
  · simp [data_extended, h]
  · simp only [data_extended, if_neg h, Option.isSome_none,
      Bool.false_eq_true, false_iff]
    intro hc
    exact h ⟨hc.1, hc.2.1, hc.2.2.1, hc.2.2.2.1⟩

/-- The neighborhood described by the spec for output cell `(i, j)`
(§4.1 step 5): positions of the original field inside the
`(2·pm_i+1) × (2·pm_j+1)` window centered on `(i, j)`, clipped at the
field's true boundary, that hold a non-missing value.  The bound
`a ≥ i - pm_i` is written `i ≤ a + pm_i` to stay in ℕ.  This definition
follows the spec's words and is compared against the code's computation. -/
def specNeighborhood (data : Field) (pm_i pm_j i j : ℕ) :
    Finset (ℕ × ℕ) :=
  (Finset.range data.ni ×ˢ Finset.range data.nj).filter fun ab =>
    i ≤ ab.1 + pm_i ∧ ab.1 ≤ i + pm_i ∧ j ≤ ab.2 + pm_j ∧
      ab.2 ≤ j + pm_j ∧ (data.entry ab.1 ab.2).isSome

lemma window_sum_eq_spec {M : Type} [AddCommMonoid M] (data : Field)
    (pm_i pm_j i j : ℕ) (F : Cell → M) (hF : F none = 0) :
    ((windowCells (data_extended data pm_i pm_j) pm_i pm_j i j).map F).sum =
      ∑ ab ∈ specNeighborhood data pm_i pm_j i j,
        F (data.entry ab.1 ab.2) := by
  rw [windowCells_map_sum]
  have h1 : ∑ d ∈ Finset.range (2 * pm_i + 1) ×ˢ
        Finset.range (2 * pm_j + 1),
        F (data_extended data pm_i pm_j (i + d.1) (j + d.2)) =
      ∑ d ∈ (Finset.range (2 * pm_i + 1) ×ˢ
          Finset.range (2 * pm_j + 1)).filter
          (fun d => (data_extended data pm_i pm_j (i + d.1)
            (j + d.2)).isSome = true),
        F (data_extended data pm_i pm_j (i + d.1) (j + d.2)) := by
    refine (Finset.sum_subset (Finset.filter_subset _ _) ?_).symm
    intro x hx hnx
    cases hgx : data_extended data pm_i pm_j (i + x.1) (j + x.2) with
    | none => exact hF
    | some v =>
      exact absurd (Finset.mem_filter.2 ⟨hx, by rw [hgx]; rfl⟩) hnx
  rw [h1]
  refine Finset.sum_nbij' (fun d => (i + d.1 - pm_i, j + d.2 - pm_j))
    (fun ab => (ab.1 + pm_i - i, ab.2 + pm_j - j)) ?_ ?_ ?_ ?_ ?_
  · intro d hd
    obtain ⟨hdS, hP⟩ := Finset.mem_filter.1 hd
    obtain ⟨h1d, h2d⟩ := Finset.mem_product.1 hdS
    rw [Finset.mem_range] at h1d h2d
    rw [data_extended_isSome_iff] at hP
    simp only [specNeighborhood, Finset.mem_filter, Finset.mem_product,
      Finset.mem_range]
    refine ⟨⟨by omega, by omega⟩, by omega, by omega, by omega, by omega,
      hP.2.2.2.2⟩
  · intro ab hab
    simp only [specNeighborhood, Finset.mem_filter, Finset.mem_product,
      Finset.mem_range] at hab
    obtain ⟨⟨ha, hb⟩, hia, hai, hjb, hbj, hsome⟩ := hab
    dsimp only
    refine Finset.mem_filter.2 ⟨Finset.mem_product.2
      ⟨Finset.mem_range.2 (by omega), Finset.mem_range.2 (by omega)⟩, ?_⟩
    rw [data_extended_isSome_iff]
    refine ⟨by omega, by omega, by omega, by omega, ?_⟩
    have e1 : i + (ab.1 + pm_i - i) - pm_i = ab.1 := by omega
    have e2 : j + (ab.2 + pm_j - j) - pm_j = ab.2 := by omega
    rw [e1, e2]
    exact hsome
  · intro d hd
    obtain ⟨hdS, hP⟩ := Finset.mem_filter.1 hd
    rw [data_extended_isSome_iff] at hP
    have e1 : i + d.1 - pm_i + pm_i - i = d.1 := by omega
    have e2 : j + d.2 - pm_j + pm_j - j = d.2 := by omega
    exact Prod.ext e1 e2
  · intro ab hab
    simp only [specNeighborhood, Finset.mem_filter, Finset.mem_product,
      Finset.mem_range] at hab
    have e1 : i + (ab.1 + pm_i - i) - pm_i = ab.1 := by omega
    have e2 : j + (ab.2 + pm_j - j) - pm_j = ab.2 := by omega
    exact Prod.ext e1 e2
  · intro d hd
    obtain ⟨hdS, hP⟩ := Finset.mem_filter.1 hd
    rw [data_extended_isSome_iff] at hP
    have hc : pm_i ≤ i + d.1 ∧ i + d.1 < data.ni + pm_i ∧
        pm_j ≤ j + d.2 ∧ j + d.2 < data.nj + pm_j := by
      exact ⟨hP.1, hP.2.1, hP.2.2.1, hP.2.2.2.1⟩
    simp [data_extended, hc]

lemma window_vals_sum_eq_spec (data : Field) (pm_i pm_j i j : ℕ) :
    ((windowCells (data_extended data pm_i pm_j) pm_i pm_j
        i j).filterMap id).sum =
      ∑ ab ∈ specNeighborhood data pm_i pm_j i j,
        (data.entry ab.1 ab.2).getD 0 := by
  rw [filterMap_id_sum,
    window_sum_eq_spec data pm_i pm_j i j (fun c => c.getD 0) rfl]

lemma window_count_eq_spec (data : Field) (pm_i pm_j i j : ℕ) :
    ((windowCells (data_extended data pm_i pm_j) pm_i pm_j
        i j).filterMap id).length =
      (specNeighborhood data pm_i pm_j i j).card := by
  rw [filterMap_id_length,
    window_sum_eq_spec data pm_i pm_j i j
      (fun c => if c.isSome then (1 : ℕ) else 0) rfl,
    Finset.card_eq_sum_ones]
  refine Finset.sum_congr rfl fun ab hab => ?_
  have hsome : (data.entry ab.1 ab.2).isSome := by
    simp only [specNeighborhood, Finset.mem_filter] at hab
    exact hab.2.2.2.2.2
  simp [hsome]

/-- C2: every non-missing output cell of `smooth_2D_array` equals the
arithmetic mean — sum divided by count — of the non-missing values in the
`(2·pm_i+1) × (2·pm_j+1)` window centered on it, clipped at the field's
true boundary; padding cells contribute to neither sum nor count. -/
theorem smooth_nonmissing_is_clipped_mean (data : Field) (pm_i pm_j : ℕ)
    (d₀ : Grid) (i j : ℕ) (hi : i < data.ni) (hj : j < data.nj)
    (hc : (data.entry i j).isSome = true) :
    ((smooth_2D_array data pm_i pm_j false d₀).1.map
        fun o => o.entry i j) =
      some (some
        ((∑ ab ∈ specNeighborhood data pm_i pm_j i j,
            (data.entry ab.1 ab.2).getD 0) /
          ((specNeighborhood data pm_i pm_j i j).card : ℚ))) := by
  show some ((runLoop false data pm_i pm_j d₀).2 i j) = _
  rw [runLoop, foldl_snd_write, if_pos (mem_cellList.2 ⟨hi, hj⟩)]
  obtain ⟨v, hv⟩ := Option.isSome_iff_exists.1 hc
  have hcen : data_extended data pm_i pm_j (i + pm_i) (j + pm_j) =
      some v := by
    rw [data_extended_center data pm_i pm_j hi hj, hv]
  have hmem : some v ∈ windowCells (data_extended data pm_i pm_j)
      pm_i pm_j i j := by
    have hm := center_mem_windowCells (data_extended data pm_i pm_j)
      pm_i pm_j i j
    rwa [hcen] at hm
  have hlen : ¬ ((windowCells (data_extended data pm_i pm_j) pm_i pm_j
      i j).filterMap id).length = 0 := by
    have hv' : v ∈ (windowCells (data_extended data pm_i pm_j)
        pm_i pm_j i j).filterMap id :=
      List.mem_filterMap.2 ⟨some v, hmem, rfl⟩
    simp only [List.length_eq_zero]
    exact List.ne_nil_of_mem hv'
  have hval : smoothedVal data pm_i pm_j i j =
      maskedMean (windowCells (data_extended data pm_i pm_j)
        pm_i pm_j i j) := by
    simp [smoothedVal, hcen]
  rw [hval]
  simp only [maskedMean, if_neg hlen]
  rw [window_vals_sum_eq_spec, window_count_eq_spec]

theorem smooth_nonmissing_is_clipped_mean_witness :
    (0 : ℕ) < exFieldFull.ni ∧ (0 : ℕ) < exFieldFull.nj ∧
    (exFieldFull.entry 0 0).isSome = true ∧
    ((smooth_2D_array exFieldFull 1 1 false destNone).1.map
        fun o => o.entry 0 0) =
      some (some
        ((∑ ab ∈ specNeighborhood exFieldFull 1 1 0 0,
            (exFieldFull.entry ab.1 ab.2).getD 0) /
          ((specNeighborhood exFieldFull 1 1 0 0).card : ℚ))) :=
  ⟨by decide, by decide, by decide,
    smooth_nonmissing_is_clipped_mean exFieldFull 1 1 destNone 0 0
      (by decide) (by decide) (by decide)⟩

/-! ### Error behavior on malformed calls (C7)

`smooth_2D_array` performs no explicit validation.  A malformed call fails
inside line 31 (`ni, nj = data.shape`, a tuple unpacking) or lines 35–36
(`np.full` with a negative dimension, or the slice assignment
`data_extended[pm_i : ni + pm_i, pm_j : nj + pm_j] = data` with a window
that cannot broadcast).  The following model captures, for the shape of
`data` and integer radii, which of those Python/NumPy errors is raised and
with which message. -/

/-- Length of the Python slice `arr[start : stop]` on an axis of length
`m` (CPython semantics: a negative endpoint is offset by `m`, then both
endpoints are clamped into `[0, m]`). -/
def sliceLen (m start stop : ℤ) : ℤ :=
  max 0 ((if stop < 0 then max 0 (m + stop) else min m stop) -
    (if start < 0 then max 0 (m + start) else min m start))

/-- The validation-relevant prefix of `smooth_2D_array` (lines 31–36) for
a `data` argument of the given shape and integer radii: `ok` when
execution reaches the averaging loop, `error` with the Python exception
message when the call fails before it. -/
def smooth_2D_array_checked (shape : List ℕ) (pm_i pm_j : ℤ) :
    Except String Unit :=
  match shape with
  | [ni, nj] =>
    if (ni : ℤ) + 2 * pm_i < 0 ∨ (nj : ℤ) + 2 * pm_j < 0 then
      Except.error "ValueError: negative dimensions are not allowed"
    else
      if (sliceLen ((ni : ℤ) + 2 * pm_i) pm_i ((ni : ℤ) + pm_i) = ni ∨
            (ni : ℤ) = 1) ∧
          (sliceLen ((nj : ℤ) + 2 * pm_j) pm_j ((nj : ℤ) + pm_j) = nj ∨
            (nj : ℤ) = 1) then
        Except.ok ()
      else
        Except.error ("ValueError: could not broadcast input array from shape ("
          ++ toString ni ++ "," ++ toString nj ++ ") into shape ("
          ++ toString (sliceLen ((ni : ℤ) + 2 * pm_i) pm_i
              ((ni : ℤ) + pm_i)) ++ ","
          ++ toString (sliceLen ((nj : ℤ) + 2 * pm_j) pm_j
              ((nj : ℤ) + pm_j)) ++ ")")
  | _ =>
    if shape.length < 2 then
      Except.error ("ValueError: not enough values to unpack (expected 2, got "
        ++ toString shape.length ++ ")")
    else
      Except.error "ValueError: too many values to unpack (expected 2)"

/-- Whether `pat` occurs as a contiguous substring of `l`. -/
def containsSub : List Char → List Char → Bool
  | _, [] => true
  | [], _ :: _ => false
  | c :: rest, p => p.isPrefixOf (c :: rest) || containsSub rest p

/-- Whether the message `msg` mentions `param` (as a substring) — the
minimal requirement for an error that "indicates on what parameter" a
precondition failed. -/
def mentions (msg param : String) : Bool :=
  containsSub msg.toList param.toList

/-- C7 counterexample: the call with `data` of shape 2×2, `pm_i = -1`,
`pm_j = 0` violates the `pm_i ≥ 0` precondition, and the error it raises
is an incidental NumPy broadcast error whose message names neither
`pm_i`, nor `pm_j`, nor `data` — it does not indicate which precondition
failed or on what parameter. -/
theorem smooth_checked_error_not_descriptive :
    smooth_2D_array_checked [2, 2] (-1) 0 =
      Except.error "ValueError: could not broadcast input array from shape (2,2) into shape (0,2)" ∧
    mentions "ValueError: could not broadcast input array from shape (2,2) into shape (0,2)"
      "pm_i" = false ∧
    mentions "ValueError: could not broadcast input array from shape (2,2) into shape (0,2)"
      "pm_j" = false ∧
    mentions "ValueError: could not broadcast input array from shape (2,2) into shape (0,2)"
      "data" = false := by
  exact ⟨rfl, by decide, by decide, by decide⟩

lemma sliceLen_lt_of_neg {n p : ℤ} (hn : 0 ≤ n + 2 * p) (hp : p < 0) :
    sliceLen (n + 2 * p) p (n + p) < n := by
  simp only [sliceLen, max_def, min_def]
  split_ifs <;> omega

/-- C7 (amended): every malformed call — `data` not 2-dimensional, or a
negative `pm_i` or `pm_j` — makes the routine raise an exception before
any result is produced (it never silently yields a wrong-shaped or
wrong-valued array), but the exception is an incidental unpacking /
dimension / broadcast error, not a descriptive precondition message. -/
theorem smooth_checked_malformed_always_errors (shape : List ℕ)
    (pm_i pm_j : ℤ)
    (h : shape.length ≠ 2 ∨ pm_i < 0 ∨ pm_j < 0) :
    (smooth_2D_array_checked shape pm_i pm_j).isOk = false := by
  match shape with
  | [] => rfl
  | [n] => rfl
  | a :: b :: c :: rest =>
    show (Except.error _ : Except String Unit).isOk = false
    rfl
  | [ni, nj] =>
    have hpm : pm_i < 0 ∨ pm_j < 0 := by
      rcases h with h | h
      · exact absurd rfl h
      · exact h
    rw [smooth_2D_array_checked]
    by_cases hneg : (ni : ℤ) + 2 * pm_i < 0 ∨ (nj : ℤ) + 2 * pm_j < 0
    · rw [if_pos hneg]
      rfl
    · push_neg at hneg
      have hbad : ¬ ((sliceLen ((ni : ℤ) + 2 * pm_i) pm_i
            ((ni : ℤ) + pm_i) = ni ∨ (ni : ℤ) = 1) ∧
          (sliceLen ((nj : ℤ) + 2 * pm_j) pm_j
            ((nj : ℤ) + pm_j) = nj ∨ (nj : ℤ) = 1)) := by
        rcases hpm with hp | hp
        · have hlt := sliceLen_lt_of_neg hneg.1 hp
          have hni : (2 : ℤ) ≤ ni := by omega
          rintro ⟨h1 | h1, -⟩
          · omega
          · omega
        · have hlt := sliceLen_lt_of_neg hneg.2 hp
          have hnj : (2 : ℤ) ≤ nj := by omega
          rintro ⟨-, h1 | h1⟩
          · omega
          · omega
      rw [if_neg (by omega : ¬ ((ni : ℤ) + 2 * pm_i < 0 ∨
        (nj : ℤ) + 2 * pm_j < 0)), if_neg hbad]
      rfl

theorem smooth_checked_malformed_always_errors_witness :
    (([2, 2] : List ℕ).length ≠ 2 ∨ (-1 : ℤ) < 0 ∨ (0 : ℤ) < 0) ∧
    (smooth_2D_array_checked [2, 2] (-1) 0).isOk = false :=
  ⟨by decide,
    smooth_checked_malformed_always_errors [2, 2] (-1) 0 (by decide)⟩

end Smoothing

namespace Stratification

/-! Embedding of Create_stratification.py: the extraction loop over the
children of `fjord/stratification` (lines 20–26) and the two profile
files it writes (lines 33–48).  A child element carries its tag and the
`z`, `S`, `T` attribute values; Python floats are modelled as ℚ and the
float-to-text conversion of an f-string is kept abstract as a `render`
parameter. -/

/-- One child element of `fjord/stratification`. -/
structure XMLLevel where
  tag : String
  z : ℚ
  S : ℚ
  T : ℚ

/-- Python outcome of running the extraction loop: a value, or an
uncaught exception. -/
inductive PyOutcome (α : Type) where
  | ok : α → PyOutcome α
  | assertionError : String → PyOutcome α
  | nameError : String → PyOutcome α
deriving DecidableEq

/-- The module-level names bound in Create_stratification.py at the
moment the assertion on lines 23–24 fires: the imports and assignments of
lines 6–21 plus the loop variable `level` of line 22. -/
def scriptScopeNames : List String :=
  ["ET", "XML_file", "XML_tree", "XML_root", "stratification",
   "XML_stratification", "level"]

/-- The one variable the assertion message f-string on line 24 reads:
`{child.tag!r}` references the name `child`. -/
def assertionMessageFreeName : String := "child"

/-- Python semantics of `assert level.tag == "level", f"... {child.tag!r}"`
(lines 23–24) for one element: if the tag matches, continue; otherwise the
message expression is evaluated first — if its free name is in scope an
`AssertionError` with the rendered message is raised, and if not (as here:
`child` is not a bound name, the loop variable is `level`) the lookup
itself raises `NameError: name \x27child\x27 is not defined`. -/
def evalLevelAssert (e : XMLLevel) : PyOutcome Unit :=
  if e.tag = "level" then PyOutcome.ok ()
  else if scriptScopeNames.contains assertionMessageFreeName then
    PyOutcome.assertionError
      ("all elements in stratification must be named \x27level\x27, not "
        ++ e.tag)
  else PyOutcome.nameError ("name \x27" ++ assertionMessageFreeName
    ++ "\x27 is not defined")

/-- The extraction loop of lines 22–25: check each child and collect its
`(z, S, T)` triple, stopping at the first uncaught exception. -/
def extractStratification : List XMLLevel → PyOutcome (List (ℚ × ℚ × ℚ))
  | [] => PyOutcome.ok []
  | e :: rest =>
    match evalLevelAssert e with
    | PyOutcome.ok _ =>
      match extractStratification rest with
      | PyOutcome.ok l => PyOutcome.ok ((e.z, e.S, e.T) :: l)
      | PyOutcome.assertionError m => PyOutcome.assertionError m
      | PyOutcome.nameError m => PyOutcome.nameError m
    | PyOutcome.assertionError m => PyOutcome.assertionError m
    | PyOutcome.nameError m => PyOutcome.nameError m

/-- Line 26: `stratification.sort(key=lambda level: level[0], reverse=True)`
— sort the `(z, S, T)` triples by depth `z`, descending. -/
def sortedStratification (levels : List (ℚ × ℚ × ℚ)) :
    List (ℚ × ℚ × ℚ) :=
  levels.mergeSort fun a b => decide (b.1 ≤ a.1)

/-- Line 28: `z_discrete = [level[0] for level in stratification]`. -/
def z_discrete (levels : List (ℚ × ℚ × ℚ)) : List ℚ :=
  (sortedStratification levels).map fun l => l.1

/-- Line 29: `S_discrete = [level[1] for level in stratification]`. -/
def S_discrete (levels : List (ℚ × ℚ × ℚ)) : List ℚ :=
  (sortedStratification levels).map fun l => l.2.1

/-- Line 30: `T_discrete = [level[2] for level in stratification]`. -/
def T_discrete (levels : List (ℚ × ℚ × ℚ)) : List ℚ :=
  (sortedStratification levels).map fun l => l.2.2

/-- Python right-aligned minimum-width formatting `f"{x:w}"` applied to an
already rendered value: pad on the left with spaces up to width `w`. -/
def padTo (w : ℕ) (s : String) : String :=
  String.mk (List.replicate (w - s.length) ' ') ++ s

/-- The lines written to `model/salt_profile.txt` (lines 35–38): the
count of levels, then one `f"{z_val:6} {S_val:3}"` line per level.
`render` stands for Python float-to-text conversion, kept abstract. -/
def salt_profile_lines (render : ℚ → String)
    (levels : List (ℚ × ℚ × ℚ)) : List String :=
  toString (z_discrete levels).length ::
    ((z_discrete levels).zip (S_discrete levels)).map fun p =>
      padTo 6 (render p.1) ++ " " ++ padTo 3 (render p.2)

/-- The lines written to `model/temp_profile.txt` (lines 44–47): the
count of levels, then one `f"{z_val:6} {T_val:5}"` line per level. -/
def temp_profile_lines (render : ℚ → String)
    (levels : List (ℚ × ℚ × ℚ)) : List String :=
  toString (z_discrete levels).length ::
    ((z_discrete levels).zip (T_discrete levels)).map fun p =>
      padTo 6 (render p.1) ++ " " ++ padTo 5 (render p.2)

/-- C8: the stratification extractor sorts the triples by depth in
descending order (a permutation of the input, pairwise non-increasing in
`z`), and each of the two output files starts with the count of levels
followed by one `<depth> <value>` line per level, the depth padded to
field width 6 and the value to width 3 (salinity) or 5 (temperature). -/
theorem stratification_files_format (render : ℚ → String)
    (levels : List (ℚ × ℚ × ℚ)) :
    List.Pairwise (fun a b : ℚ × ℚ × ℚ => b.1 ≤ a.1)
      (sortedStratification levels) ∧
    (sortedStratification levels).Perm levels ∧
    salt_profile_lines render levels =
      toString levels.length ::
        (sortedStratification levels).map (fun l =>
          padTo 6 (render l.1) ++ " " ++ padTo 3 (render l.2.1)) ∧
    temp_profile_lines render levels =
      toString levels.length ::
        (sortedStratification levels).map (fun l =>
          padTo 6 (render l.1) ++ " " ++ padTo 5 (render l.2.2)) := by
  have hlen : (sortedStratification levels).length = levels.length :=
    List.length_mergeSort levels
  refine ⟨?_, List.mergeSort_perm levels _, ?_, ?_⟩
  · have hp := @List.sorted_mergeSort (ℚ × ℚ × ℚ)
      (fun a b => decide (b.1 ≤ a.1))
      (fun a b c hab hbc => by
        simp only [decide_eq_true_eq] at hab hbc ⊢
        exact le_trans hbc hab)
      (fun a b => by
        simp only [Bool.or_eq_true, decide_eq_true_eq]
        exact le_total b.1 a.1)
      levels
    exact hp.imp fun h => decide_eq_true_eq.mp h
  · rw [salt_profile_lines, z_discrete, S_discrete, List.zip_map',
      List.map_map]
    congr 1
    rw [List.length_map, hlen]
  · rw [temp_profile_lines, z_discrete, T_discrete, List.zip_map',
      List.map_map]
    congr 1
    rw [List.length_map, hlen]

/-- C10: if any child of `fjord/stratification` has a tag other than
`"level"` (all children before it well-tagged), the script raises
`NameError: name \x27child\x27 is not defined` — the assertion message
references the undefined name `child` (the loop variable is `level`), so
the promised descriptive `AssertionError` is never produced. -/
theorem stratification_bad_tag_raises_nameError (pre : List XMLLevel)
    (e : XMLLevel) (post : List XMLLevel)
    (hpre : ∀ x ∈ pre, x.tag = "level") (he : ¬ e.tag = "level") :
    extractStratification (pre ++ e :: post) =
      PyOutcome.nameError "name \x27child\x27 is not defined" := by
  induction pre with
  | nil =>
    have hscope : ¬ ("child" ∈ scriptScopeNames) := by decide
    simp [extractStratification, evalLevelAssert, he, hscope,
      assertionMessageFreeName]
  | cons a pre ih =>
    have ha : a.tag = "level" := hpre a (List.mem_cons_self a pre)
    have ih' := ih fun x hx => hpre x (List.mem_cons_of_mem a hx)
    simp [extractStratification, evalLevelAssert, ha, ih']

theorem stratification_bad_tag_raises_nameError_witness :
    ¬ (XMLLevel.mk "layer" 0 0 0).tag = "level" ∧
    extractStratification [XMLLevel.mk "layer" 0 0 0] =
      PyOutcome.nameError "name \x27child\x27 is not defined" :=
  ⟨by decide,
    stratification_bad_tag_raises_nameError [] (XMLLevel.mk "layer" 0 0 0)
      [] (fun x hx => absurd hx (List.not_mem_nil x)) (by decide)⟩

end Stratification

end FjordModel
